import Mathlib

/-!
Verification development for the retrieval-and-improvement engine.

The API contracts (zod schemas in libs/api-contracts), the coherence and
tuner prompts, and the editor frontend validation are embedded from the
source files.  The engine internals (ingest normalizer, retrieval engine,
improvement orchestrator, text cleaner) are not present in the repository
sources, so they are modelled from the specification where a claim needs
them; each such definition is marked in its doc comment.

Strings are modelled through their character lists; string length counts
characters (the zod schemas count UTF-16 code units, which agrees on the
ASCII inputs used here).  Numeric scores are modelled as rationals.
-/

/-- Coherence score record, from CoherenceScoreSchema in the common contracts
file: a score, optional free-text notes, and a passed flag. -/
structure CoherenceScore where
  score : ℚ
  notes : Option String
  passed : Bool

/-- Schema-level validity of a coherence score, from CoherenceScoreSchema:
the score is constrained to the interval from 0 to 1. -/
def coherenceScoreValid (c : CoherenceScore) : Bool :=
  decide (0 ≤ c.score) && decide (c.score ≤ 1)

/-- The fixed coherence pass threshold, from the spec and the coherence
scorer prompt: passing means score at least 0.85. -/
def COHERENCE_THRESHOLD : ℚ := 85 / 100

/-- Modelled from the spec: the scoreCoherence collaborator output as the
system produces it; the passed flag is set exactly when the score reaches
the fixed 0.85 threshold.  The producing code is not in the repository
sources; this follows the data-model sentence of the spec. -/
def mkCoherenceScore (score : ℚ) (notes : Option String) : CoherenceScore :=
  ⟨score, notes, decide (COHERENCE_THRESHOLD ≤ score)⟩

/-- Modelled from the spec: the similarity weight of the combined score.
The exact coefficients are configuration; the spec requires static weights
summing to 1 with the ranking invariant. -/
def SIMILARITY_WEIGHT : ℚ := 7 / 10

/-- Modelled from the spec: the performance weight of the combined score. -/
def PERFORMANCE_WEIGHT : ℚ := 3 / 10

/-- Modelled from the spec: the combined ranking score, a fixed weighted
combination of similarity and performance scores. -/
def combinedScore (sim perf : ℚ) : ℚ :=
  SIMILARITY_WEIGHT * sim + PERFORMANCE_WEIGHT * perf

/-- Validity of the draft body of a retrieve request, from
RetrieveRequestSchema: a string of length 1 to 10000. -/
def retrieveRequestValid (draft_body : String) : Bool :=
  decide (1 ≤ draft_body.length) && decide (draft_body.length ≤ 10000)

/-- Validity of the target word count of an improve request, from
ImproveRequestSchema: an integer from 100 to 2000. -/
def targetWordCountValid (w : Nat) : Bool :=
  decide (100 ≤ w) && decide (w ≤ 2000)

/-- Improved script record, from ImprovedScriptSchema: title, hook, body,
word count and the coherence score attached to the result. -/
structure ImprovedScript where
  title : String
  hook : String
  body : String
  word_count : Nat
  coherence : CoherenceScore

/-- Schema-level validity of an improved script, from ImprovedScriptSchema:
title 1 to 200 characters, hook 1 to 500, body 100 to 5000, and a valid
nested coherence score. -/
def improvedScriptValid (x : ImprovedScript) : Bool :=
  decide (1 ≤ x.title.length) && decide (x.title.length ≤ 200) &&
  decide (1 ≤ x.hook.length) && decide (x.hook.length ≤ 500) &&
  decide (100 ≤ x.body.length) && decide (x.body.length ≤ 5000) &&
  coherenceScoreValid x.coherence

/-- Retrieval candidate, from ReferenceScriptSchema restricted to the fields
the ranking logic uses: the record key, the eligibility flag of the backing
record, and the similarity and performance scores.  The similarity score is
the one the vector store reports for the query embedding, carried here as
data since the embedding collaborator is external. -/
structure Candidate where
  video_id : String
  eligible : Bool
  similarity_score : ℚ
  performance_score : ℚ

/-- Combined ranking score of a candidate. -/
def combinedScoreOf (c : Candidate) : ℚ :=
  combinedScore c.similarity_score c.performance_score

/-- Modelled from the spec: the ranking order used to sort candidates,
descending by combined score with ties broken by ascending id. -/
def rankLE (a b : Candidate) : Bool :=
  decide (combinedScoreOf b < combinedScoreOf a) ||
    (decide (combinedScoreOf a = combinedScoreOf b) &&
      !decide (b.video_id < a.video_id))

/-- Retrieve response, from RetrieveResponseSchema: optional best reference,
at most five alternates, count of candidates examined, elapsed search time,
and an optional reason present only when no reference was found. -/
structure RetrieveResponse where
  ref : Option Candidate
  alternates : List Candidate
  total_candidates : Nat
  search_time_ms : ℚ
  reason : Option String

/-- Modelled from the spec: the retrieval and reranking engine.  Eligible
candidates are ranked by combined score; the top candidate is returned as
the reference with up to five alternates, and an empty ranking yields the
no-match response with a human-readable reason.  Elapsed time is not
modelled and reported as zero. -/
def retrieve (corpus : List Candidate) : RetrieveResponse :=
  match (corpus.filter (fun c => c.eligible)).mergeSort rankLE with
  | [] => ⟨none, [], 0, 0, some "no eligible references"⟩
  | r :: rest => ⟨some r, rest.take 5, (r :: rest).length, 0, none⟩

/-- Error taxonomy entry for retrieval request validation failures. -/
inductive RetrieveError where
  | validationError

/-- Modelled from the spec: the retrieval entry point.  The length bounds
are checked first and a failing draft is rejected with a ValidationError
before any embedding or search work; the second component counts the
embedding-provider calls issued. -/
def retrievePipeline (corpus : List Candidate) (draft_body : String) :
    Except RetrieveError RetrieveResponse × Nat :=
  if retrieveRequestValid draft_body then (Except.ok (retrieve corpus), 1)
  else (Except.error RetrieveError.validationError, 0)

/-- Output of the rewrite collaborator: title, hook, body and word count. -/
structure ScriptDraftOut where
  title : String
  hook : String
  body : String
  word_count : Nat

/-- Output of the tuner collaborator, from the tuner prompt contract: a
field is present only if it was changed. -/
structure TuneOut where
  newTitle : Option String
  newBody : Option String

/-- Collaborator environment of one improve request: the rewrite result,
the deterministic coherence collaborator, and the tuner outcome where none
models a failed tuning call. -/
structure ImproveEnv where
  rewriteOut : ScriptDraftOut
  scoreOf : String → String → CoherenceScore
  tuneOut : Option TuneOut

/-- Application of a tuner result to a script: changed fields replace the
previous ones, absent fields keep them. -/
def applyTune (s : ScriptDraftOut) (t : TuneOut) : ScriptDraftOut :=
  ⟨t.newTitle.getD s.title, s.hook, t.newBody.getD s.body, s.word_count⟩

/-- Packaging of a script and its coherence score as an improved script. -/
def mkImproved (s : ScriptDraftOut) (c : CoherenceScore) : ImprovedScript :=
  ⟨s.title, s.hook, s.body, s.word_count, c⟩

/-- Improve response, from ImproveResponseSchema restricted to the fields
the gate logic concerns: result, warnings and the tuner pass count. -/
structure ImproveResponse where
  result : ImprovedScript
  warnings : List String
  tuner_passes : Nat

/-- The first coherence check of an improve request, on the rewrite
output. -/
def firstScore (env : ImproveEnv) : CoherenceScore :=
  env.scoreOf env.rewriteOut.title env.rewriteOut.body

/-- Modelled from the spec: the improvement orchestrator as a closed-form
function.  If the first coherence check passes, the request finalizes with
zero tuner passes; otherwise exactly one tuning pass runs, coherence is
recomputed once, the better of the two results is kept, and a failed tuning
call degrades to a warning while keeping the pre-tuning result. -/
def improveResponse (env : ImproveEnv) : ImproveResponse :=
  let s0 := env.rewriteOut
  let c0 := firstScore env
  if c0.passed then ⟨mkImproved s0 c0, [], 0⟩
  else
    match env.tuneOut with
    | some t =>
      let s1 := applyTune s0 t
      let c1 := env.scoreOf s1.title s1.body
      if c0.score ≤ c1.score then ⟨mkImproved s1 c1, [], 1⟩
      else ⟨mkImproved s0 c0, [], 1⟩
    | none => ⟨mkImproved s0 c0, ["tuning call failed; kept pre-tuning result"], 1⟩

/-- Modelled from the spec: the phases of the orchestrator state machine. -/
inductive ImprovePhase where
  | initial
  | scored (s : ScriptDraftOut) (c : CoherenceScore)
  | tuning (s : ScriptDraftOut) (c : CoherenceScore)
  | done (r : ImproveResponse)

/-- Modelled from the spec: one transition of the orchestrator state
machine.  Initial moves to Scored through the rewrite and first coherence
check; Scored finalizes when the gate passes and otherwise moves to Tuning;
Tuning performs the single bounded tuning pass and finalizes; Done is
terminal. -/
def improveStep (env : ImproveEnv) : ImprovePhase → ImprovePhase
  | ImprovePhase.initial =>
    ImprovePhase.scored env.rewriteOut (firstScore env)
  | ImprovePhase.scored s c =>
    if c.passed then ImprovePhase.done ⟨mkImproved s c, [], 0⟩
    else ImprovePhase.tuning s c
  | ImprovePhase.tuning s c =>
    match env.tuneOut with
    | some t =>
      let s1 := applyTune s t
      let c1 := env.scoreOf s1.title s1.body
      if c.score ≤ c1.score then ImprovePhase.done ⟨mkImproved s1 c1, [], 1⟩
      else ImprovePhase.done ⟨mkImproved s c, [], 1⟩
    | none =>
      ImprovePhase.done ⟨mkImproved s c, ["tuning call failed; kept pre-tuning result"], 1⟩
  | ImprovePhase.done r => ImprovePhase.done r

/-- The phase reached after a number of machine transitions from Initial. -/
def improvePhase (env : ImproveEnv) : Nat → ImprovePhase
  | 0 => ImprovePhase.initial
  | n + 1 => improveStep env (improvePhase env n)

/-- The response visible at a step, if the machine has finalized. -/
def respAt (env : ImproveEnv) (n : Nat) : Option ImproveResponse :=
  match improvePhase env n with
  | ImprovePhase.done r => some r
  | _ => none

/-- Whether a phase is the tuning phase. -/
def phaseIsTuning : ImprovePhase → Bool
  | ImprovePhase.tuning _ _ => true
  | _ => false

/-- Character class of the video id pattern, from VideoIdSchema: ASCII
letters, digits, hyphen and underscore. -/
def isIdChar (c : Char) : Bool :=
  c.isAlphanum || c == '-' || c == '_'

/-- Video id validity, from VideoIdSchema: the anchored pattern of 6 to 50
characters drawn from the id character class. -/
def isValidVideoId (s : String) : Bool :=
  decide (6 ≤ s.length) && decide (s.length ≤ 50) && s.data.all isIdChar

/-- Disposition buckets of the ingest report, from IngestReportSchema and
the spec data model. -/
inductive Bucket where
  | metrics_only
  | transcripts_only
  | invalid_id
  | too_long
  | too_fresh
  | unknown_age
  | successful
deriving DecidableEq

/-- Modelled from the spec: one key of an ingest run, with the file
membership flags, the record duration, and the publish date in days where
none models missing publish-date information. -/
structure JoinRow where
  id : String
  inMetrics : Bool
  inTranscripts : Bool
  duration_seconds : ℚ
  published_at : Option Nat

/-- Modelled from the spec: the disposition assignment of the ingest
normalizer.  Keys present in only one file are counted as metrics-only or
transcripts-only; joined keys go through the eligibility checks in the
order the spec lists them, and everything else is successful.  The cutoff
is the dataset-relative freshness boundary in days. -/
def bucketOf (cutoff : Nat) (r : JoinRow) : Bucket :=
  if !r.inTranscripts then Bucket.metrics_only
  else if !r.inMetrics then Bucket.transcripts_only
  else if !(isValidVideoId r.id) then Bucket.invalid_id
  else if 180 < r.duration_seconds then Bucket.too_long
  else
    match r.published_at with
    | none => Bucket.unknown_age
    | some d => if cutoff < d then Bucket.too_fresh else Bucket.successful

/-- Whether a row is joined, that is present in both input files. -/
def joinedRow (r : JoinRow) : Prop :=
  r.inMetrics = true ∧ r.inTranscripts = true

/-- Modelled from the spec: the defining condition of each disposition
bucket, stated independently of the assignment function so that
exhaustiveness and mutual exclusivity are meaningful properties. -/
def inBucket (cutoff : Nat) (r : JoinRow) : Bucket → Prop
  | Bucket.metrics_only => r.inMetrics = true ∧ r.inTranscripts = false
  | Bucket.transcripts_only => r.inMetrics = false ∧ r.inTranscripts = true
  | Bucket.invalid_id => joinedRow r ∧ isValidVideoId r.id = false
  | Bucket.too_long => joinedRow r ∧ isValidVideoId r.id = true ∧
      180 < r.duration_seconds
  | Bucket.unknown_age => joinedRow r ∧ isValidVideoId r.id = true ∧
      r.duration_seconds ≤ 180 ∧ r.published_at = none
  | Bucket.too_fresh => joinedRow r ∧ isValidVideoId r.id = true ∧
      r.duration_seconds ≤ 180 ∧ ∃ d, r.published_at = some d ∧ cutoff < d
  | Bucket.successful => joinedRow r ∧ isValidVideoId r.id = true ∧
      r.duration_seconds ≤ 180 ∧ ∃ d, r.published_at = some d ∧ d ≤ cutoff

/-- Removal of leading and trailing whitespace of a character list,
embedding the trim call of the editor frontend. -/
def trimChars (cs : List Char) : List Char :=
  ((cs.dropWhile Char.isWhitespace).reverse.dropWhile Char.isWhitespace).reverse

/-- Whether the first list is an initial segment of the second. -/
def startsWithSeq : List Char → List Char → Bool
  | [], _ => true
  | _ :: _, [] => false
  | p :: ps, c :: cs => p == c && startsWithSeq ps cs

/-- Whether the pattern occurs as a contiguous subsequence. -/
def containsSeq (pat : List Char) : List Char → Bool
  | [] => pat.isEmpty
  | c :: cs => startsWithSeq pat (c :: cs) || containsSeq pat cs

/-- Word character of the event-handler pattern of validateInput: ASCII
letters, digits and underscore. -/
def isWordChar (c : Char) : Bool :=
  c.isAlphanum || c == '_'

/-- Whitespace character of the event-handler pattern of validateInput. -/
def isJsSpace (c : Char) : Bool :=
  c == ' ' || c == '\t' || c == '\n' || c == '\r' || c.val == 11 || c.val == 12

/-- Whether the event-handler pattern of validateInput matches at the head
of an already lowercased character list: the letters on, one or more word
characters, optional whitespace, and an equals sign. -/
def onEqAt (cs : List Char) : Bool :=
  match cs with
  | 'o' :: 'n' :: rest =>
    let p := rest.span isWordChar
    !p.1.isEmpty &&
      (match p.2.dropWhile isJsSpace with
       | '=' :: _ => true
       | _ => false)
  | _ => false

/-- Whether the event-handler pattern matches anywhere. -/
def hasOnEq : List Char → Bool
  | [] => false
  | c :: cs => onEqAt (c :: cs) || hasOnEq cs

/-- The suspicious-content check of validateInput in the editor frontend:
the six fixed case-insensitive patterns of the source. -/
def hasSuspicious (s : String) : Bool :=
  let low := s.data.map Char.toLower
  containsSeq ("<script".data) low ||
  containsSeq ("javascript:".data) low ||
  hasOnEq low ||
  containsSeq ("<iframe".data) low ||
  containsSeq ("<object".data) low ||
  containsSeq ("<embed".data) low

/-- Result record of validateInput in the editor frontend. -/
structure ValidationResult where
  isValid : Bool
  error : Option String

/-- The validateInput function of the editor frontend: reject empty or
whitespace-only input, trimmed input shorter than 10 characters, input
longer than 10000 characters, and input matching a suspicious pattern. -/
def validateInput (text : String) : ValidationResult :=
  if (trimChars text.data).isEmpty then ⟨false, some "Please enter a draft script"⟩
  else if (trimChars text.data).length < 10 then
    ⟨false, some "Script must be at least 10 characters long"⟩
  else if 10000 < text.data.length then
    ⟨false, some "Script must be less than 10,000 characters"⟩
  else if hasSuspicious text then
    ⟨false, some "Script contains potentially unsafe content"⟩
  else ⟨true, none⟩

/-- Prepending of a character to the first token of a token list. -/
def consHead (c : Char) : List (List Char) → List (List Char)
  | [] => [[c]]
  | t :: ts => (c :: t) :: ts

/-- Splitting of a character list at every character satisfying the
predicate; the result is always nonempty and separator-free. -/
def splitOnP (p : Char → Bool) : List Char → List (List Char)
  | [] => [[]]
  | c :: cs =>
    if p c then [] :: splitOnP p cs
    else consHead c (splitOnP p cs)

/-- Splitting at a single separator character. -/
def splitOnChar (sep : Char) : List Char → List (List Char) :=
  splitOnP (fun c => c == sep)

/-- Joining of token lists with a single separator character. -/
def joinWith (sep : Char) : List (List Char) → List Char
  | [] => []
  | [t] => t
  | t :: t2 :: ts => t ++ sep :: joinWith sep (t2 :: ts)

/-- Modelled from the spec: a clock-digit group of a timestamp, one or two
digits. -/
def isClockGroup (g : List Char) : Bool :=
  decide (1 ≤ g.length) && decide (g.length ≤ 2) && g.all Char.isDigit

/-- Modelled from the spec: the inside of a bracketed time marker, two or
three colon-separated clock groups as in mm colon ss or hh colon mm colon
ss. -/
def isClockInside (cs : List Char) : Bool :=
  (decide ((splitOnChar ':' cs).length = 2) ||
    decide ((splitOnChar ':' cs).length = 3)) &&
  (splitOnChar ':' cs).all isClockGroup

/-- Modelled from the spec: a bracketed time marker token, an opening
bracket, a clock inside and a closing bracket. -/
def isBracketTs (t : List Char) : Bool :=
  match t with
  | '[' :: rest =>
    match rest.getLast? with
    | some ']' => isClockInside rest.dropLast
    | _ => false
  | _ => false

/-- Modelled from the spec: a clock of the form hours colon minutes. -/
def isHHMM (cs : List Char) : Bool :=
  decide ((splitOnChar ':' cs).length = 2) && (splitOnChar ':' cs).all isClockGroup

/-- Range separator of an explicit time range: hyphen or en-dash. -/
def isDashChar (c : Char) : Bool :=
  c == '-' || c == '–'

/-- Modelled from the spec: an explicit time-range token, two clocks joined
by a hyphen or an en-dash. -/
def isTimeRange (t : List Char) : Bool :=
  decide ((splitOnP isDashChar t).length = 2) && (splitOnP isDashChar t).all isHHMM

/-- Unit letter of a compact duration token. -/
def isDurUnit (c : Char) : Bool :=
  c == 'h' || c == 'm' || c == 's'

/-- Fuel-indexed parser of compact duration tokens: one or more groups of
digits each followed by a unit letter.  The fuel bounds the recursion by
the token length. -/
def isDurAux : Nat → List Char → Bool
  | 0, _ => false
  | fuel + 1, cs =>
    match cs.span Char.isDigit with
    | (ds, u :: rest) =>
      !ds.isEmpty && isDurUnit u && (rest.isEmpty || isDurAux fuel rest)
    | (_, []) => false

/-- Modelled from the spec: a compact duration token such as 1h02m, 2m15s
or 90s. -/
def isDurToken (t : List Char) : Bool :=
  !t.isEmpty && isDurAux t.length t

/-- Whether a token survives the in-line cleaning filter: time-range and
compact-duration tokens are stripped. -/
def keepToken (t : List Char) : Bool :=
  !(isTimeRange t || isDurToken t)

/-- Modelled from the spec: the token-level cleaning of one line.  Range
and duration tokens are filtered out everywhere, and bracketed time markers
anchored at the start of the line are dropped.  The filter runs first so
that the whole pass is idempotent, as the spec requires. -/
def cleanTokens (ts : List (List Char)) : List (List Char) :=
  (ts.filter keepToken).dropWhile isBracketTs

/-- Modelled from the spec: cleaning of one line, through its
space-separated tokens. -/
def cleanLine (cs : List Char) : List Char :=
  joinWith ' ' (cleanTokens (splitOnChar ' ' cs))

/-- Modelled from the spec: cleaning of a whole text, line by line. -/
def cleanChars (cs : List Char) : List Char :=
  joinWith '\n' ((splitOnChar '\n' cs).map cleanLine)

/-- Modelled from the spec: the ingest timestamp-noise cleaner.  The
cleaner itself is not in the repository sources; this follows the text
cleaning rules of the spec. -/
def clean (s : String) : String :=
  ⟨cleanChars s.data⟩

/-- C1: a coherence score produced by the system has passed set to true
exactly when the score reaches the fixed 0.85 threshold, and passed set to
false exactly when the score is below it. -/
theorem coherence_passed_iff_threshold (q : ℚ) (n : Option String) :
    COHERENCE_THRESHOLD = 85 / 100
  ∧ (mkCoherenceScore q n).score = q
  ∧ ((mkCoherenceScore q n).passed = true ↔ 85 / 100 ≤ q)
  ∧ ((mkCoherenceScore q n).passed = false ↔ q < 85 / 100) := by
  refine ⟨rfl, rfl, ?_, ?_⟩
  · simp [mkCoherenceScore, COHERENCE_THRESHOLD]
  · simp [mkCoherenceScore, COHERENCE_THRESHOLD]

/-- C7: the combined ranking score weights sum to one, and at fixed
performance score the combined score is strictly monotonic in the
similarity score, with all scores staying in the unit interval. -/
theorem combined_score_monotone (sA sB p : ℚ)
    (hA0 : 0 ≤ sA) (hA1 : sA ≤ 1) (hB0 : 0 ≤ sB) (hB1 : sB ≤ 1)
    (hp0 : 0 ≤ p) (hp1 : p ≤ 1) (hlt : sB < sA) :
    SIMILARITY_WEIGHT + PERFORMANCE_WEIGHT = 1
  ∧ combinedScore sB p < combinedScore sA p
  ∧ 0 ≤ combinedScore sB p ∧ combinedScore sB p ≤ 1
  ∧ 0 ≤ combinedScore sA p ∧ combinedScore sA p ≤ 1 := by
  unfold combinedScore SIMILARITY_WEIGHT PERFORMANCE_WEIGHT
  refine ⟨by norm_num, by linarith, by linarith, by linarith, by linarith, by linarith⟩

/-- Witness for C7 at similarity scores one and one half and performance
score one half. -/
theorem combined_score_monotone_witness :
    ((0:ℚ) ≤ 1 ∧ (1:ℚ) ≤ 1 ∧ (0:ℚ) ≤ 1/2 ∧ (1:ℚ)/2 ≤ 1 ∧ (1:ℚ)/2 < 1)
  ∧ (SIMILARITY_WEIGHT + PERFORMANCE_WEIGHT = 1
     ∧ combinedScore (1/2) (1/2) < combinedScore 1 (1/2)
     ∧ 0 ≤ combinedScore (1/2) (1/2) ∧ combinedScore (1/2) (1/2) ≤ 1
     ∧ 0 ≤ combinedScore 1 (1/2) ∧ combinedScore 1 (1/2) ≤ 1) :=
  ⟨⟨by norm_num, by norm_num, by norm_num, by norm_num, by norm_num⟩,
   combined_score_monotone 1 (1/2) (1/2) (by norm_num) (by norm_num) (by norm_num)
     (by norm_num) (by norm_num) (by norm_num) (by norm_num)⟩

/-- C10: an improved script is accepted by the response schema exactly when
its title has 1 to 200 characters, its hook 1 to 500, its body 100 to 5000
and its coherence score lies in the unit interval, while the improve
request schema accepts a target word count of 2000 and rejects 2001. -/
theorem improved_script_schema_bounds (x : ImprovedScript) :
    (improvedScriptValid x = true ↔
      (1 ≤ x.title.length ∧ x.title.length ≤ 200
       ∧ 1 ≤ x.hook.length ∧ x.hook.length ≤ 500
       ∧ 100 ≤ x.body.length ∧ x.body.length ≤ 5000
       ∧ 0 ≤ x.coherence.score ∧ x.coherence.score ≤ 1))
  ∧ targetWordCountValid 2000 = true ∧ targetWordCountValid 2001 = false := by
  refine ⟨?_, by decide, by decide⟩
  simp [improvedScriptValid, coherenceScoreValid, and_assoc]

/-- C4: the retrieve request schema accepts a draft body exactly when its
length is between 1 and 10000 characters, and a rejected draft yields a
ValidationError with no embedding-provider call issued. -/
theorem retrieve_request_validation (s : String) (corpus : List Candidate) :
    (retrieveRequestValid s = true ↔ 1 ≤ s.length ∧ s.length ≤ 10000)
  ∧ (retrieveRequestValid s = false →
      retrievePipeline corpus s = (Except.error RetrieveError.validationError, 0)) := by
  constructor
  · simp [retrieveRequestValid]
  · intro h
    simp [retrievePipeline, h]

/-- Witness for C4 at the empty draft and the empty corpus. -/
theorem retrieve_request_validation_witness :
    retrieveRequestValid "" = false
  ∧ retrievePipeline [] "" = (Except.error RetrieveError.validationError, 0) :=
  ⟨by decide, (retrieve_request_validation "" []).2 (by decide)⟩

/-- C9: the editor frontend validateInput rejects with an error message
every input whose trimmed length is below 10 characters, every input longer
than 10000 characters, and every input matching a suspicious pattern; its
lower bound is strictly tighter than the 1 character minimum of the
retrieve request contract, shown on a 5 character draft the contract
accepts and the frontend rejects. -/
theorem validate_input_bounds :
    (∀ s : String,
      ((trimChars s.data).length < 10 →
        (validateInput s).isValid = false ∧ (validateInput s).error.isSome = true)
      ∧ (10000 < s.data.length →
        (validateInput s).isValid = false ∧ (validateInput s).error.isSome = true)
      ∧ (hasSuspicious s = true →
        (validateInput s).isValid = false ∧ (validateInput s).error.isSome = true))
  ∧ retrieveRequestValid "short" = true
  ∧ (validateInput "short").isValid = false := by
  refine ⟨fun s => ⟨?_, ?_, ?_⟩, by decide, by decide⟩ <;> intro h <;>
    unfold validateInput <;> split_ifs with h1 h2 h3 h4 <;>
    simp_all [List.isEmpty_iff] <;> omega

/-- Witness for C9 at a 5 character draft. -/
theorem validate_input_bounds_witness :
    (trimChars ("short".data)).length < 10
  ∧ (validateInput "short").isValid = false
  ∧ (validateInput "short").error.isSome = true :=
  ⟨by decide, ((validate_input_bounds.1 "short").1 (by decide)).1,
   ((validate_input_bounds.1 "short").1 (by decide)).2⟩

/-- C8: a record key is accepted by the video id schema exactly when it is
6 to 50 characters of ASCII letters, digits, hyphen and underscore, and a
joined ingest row with a malformed key is bucketed as invalid id. -/
theorem video_id_validation (s : String) (cutoff : Nat) (r : JoinRow) :
    (isValidVideoId s = true ↔
      (6 ≤ s.length ∧ s.length ≤ 50 ∧ ∀ c ∈ s.data,
        (65 ≤ c.val ∧ c.val ≤ 90) ∨ (97 ≤ c.val ∧ c.val ≤ 122)
        ∨ (48 ≤ c.val ∧ c.val ≤ 57) ∨ c = '-' ∨ c = '_'))
  ∧ (r.inMetrics = true → r.inTranscripts = true → isValidVideoId r.id = false →
      bucketOf cutoff r = Bucket.invalid_id) := by
  constructor
  · simp only [isValidVideoId, Bool.and_eq_true, decide_eq_true_iff, List.all_eq_true,
      and_assoc, and_congr_right_iff]
    intro _ _
    refine forall_congr' fun c => forall_congr' fun _ => ?_
    simp [isIdChar, Char.isAlphanum, Char.isAlpha, Char.isUpper, Char.isLower,
      Char.isDigit, or_assoc, beq_iff_eq, ge_iff_le, decide_eq_true_iff]
  · intro hm ht hid
    simp [bucketOf, hm, ht, hid]

/-- Concrete joined row with a malformed two character key. -/
def rowInvalid : JoinRow := ⟨"ab", true, true, 10, some 0⟩

/-- Witness for C8 at the malformed key row. -/
theorem video_id_validation_witness :
    JoinRow.inMetrics rowInvalid = true
  ∧ JoinRow.inTranscripts rowInvalid = true
  ∧ isValidVideoId "ab" = false
  ∧ bucketOf 0 rowInvalid = Bucket.invalid_id :=
  ⟨rfl, rfl, by decide, (video_id_validation "ab" 0 rowInvalid).2 rfl rfl (by decide)⟩

/-- The assignment function lands every row present in at least one file in
the bucket whose defining condition the row satisfies. -/
lemma inBucket_bucketOf (cutoff : Nat) (r : JoinRow)
    (h : r.inMetrics = true ∨ r.inTranscripts = true) :
    inBucket cutoff r (bucketOf cutoff r) := by
  by_cases ht : r.inTranscripts = true
  · by_cases hm : r.inMetrics = true
    · by_cases hid : isValidVideoId r.id = true
      · by_cases hd : (180:ℚ) < r.duration_seconds
        · simp [bucketOf, inBucket, joinedRow, ht, hm, hid, hd]
        · rcases hpa : r.published_at with _ | d
          · simp [bucketOf, inBucket, joinedRow, ht, hm, hid, hd, hpa, not_lt.mp hd]
          · by_cases hdf : cutoff < d
            · simp [bucketOf, inBucket, joinedRow, ht, hm, hid, hd, hpa, hdf,
                not_lt.mp hd]
            · simp [bucketOf, inBucket, joinedRow, ht, hm, hid, hd, hpa, hdf,
                not_lt.mp hd, not_lt.mp hdf]
      · simp only [Bool.not_eq_true] at hid
        simp [bucketOf, inBucket, joinedRow, ht, hm, hid]
    · simp only [Bool.not_eq_true] at hm
      simp [bucketOf, inBucket, ht, hm]
  · simp only [Bool.not_eq_true] at ht
    have hm : r.inMetrics = true := h.resolve_right (by simp [ht])
    simp [bucketOf, inBucket, ht, hm]

/-- A bucket whose defining condition a row satisfies is the one the
assignment function picks. -/
lemma inBucket_eq_bucketOf (cutoff : Nat) (r : JoinRow) (b : Bucket)
    (hb : inBucket cutoff r b) : b = bucketOf cutoff r := by
  cases b with
  | metrics_only =>
    obtain ⟨hm, ht⟩ := hb
    simp [bucketOf, ht]
  | transcripts_only =>
    obtain ⟨hm, ht⟩ := hb
    simp [bucketOf, hm, ht]
  | invalid_id =>
    obtain ⟨⟨hm, ht⟩, hid⟩ := hb
    simp [bucketOf, hm, ht, hid]
  | too_long =>
    obtain ⟨⟨hm, ht⟩, hid, hd⟩ := hb
    simp [bucketOf, hm, ht, hid, hd]
  | unknown_age =>
    obtain ⟨⟨hm, ht⟩, hid, hd, hpa⟩ := hb
    simp [bucketOf, hm, ht, hid, hpa, not_lt.mpr hd]
  | too_fresh =>
    obtain ⟨⟨hm, ht⟩, hid, hd, d, hpa, hdf⟩ := hb
    simp [bucketOf, hm, ht, hid, hpa, hdf, not_lt.mpr hd]
  | successful =>
    obtain ⟨⟨hm, ht⟩, hid, hd, d, hpa, hdf⟩ := hb
    simp [bucketOf, hm, ht, hid, hpa, not_lt.mpr hd, not_lt.mpr hdf]

/-- C5: for every ingest row present in at least one input file, and in
particular for every joined row, the disposition bucketing is exhaustive
and mutually exclusive: the row satisfies the condition of the bucket the
normalizer assigns it, and no two distinct buckets both apply. -/
theorem bucketing_exhaustive_exclusive (cutoff : Nat) (r : JoinRow)
    (h : r.inMetrics = true ∨ r.inTranscripts = true) :
    inBucket cutoff r (bucketOf cutoff r)
  ∧ ∀ b b2 : Bucket, inBucket cutoff r b → inBucket cutoff r b2 → b = b2 := by
  refine ⟨inBucket_bucketOf cutoff r h, fun b b2 hb hb2 => ?_⟩
  rw [inBucket_eq_bucketOf cutoff r b hb, inBucket_eq_bucketOf cutoff r b2 hb2]

/-- Concrete joined row passing every eligibility check. -/
def rowJoined : JoinRow := ⟨"abc123", true, true, 60, some 5⟩

/-- Witness for C5 at the joined eligible row. -/
theorem bucketing_exhaustive_exclusive_witness :
    (JoinRow.inMetrics rowJoined = true ∨ JoinRow.inTranscripts rowJoined = true)
  ∧ inBucket 100 rowJoined (bucketOf 100 rowJoined)
  ∧ bucketOf 100 rowJoined = Bucket.successful :=
  ⟨Or.inl rfl, (bucketing_exhaustive_exclusive 100 rowJoined (Or.inl rfl)).1, by decide⟩

/-- C3: a retrieve call against an empty or fully ineligible corpus returns
a null reference, no alternates, zero candidates and a nonempty
human-readable reason, and in every retrieve response a reason is present
exactly when the reference is null. -/
theorem retrieve_no_match (corpus : List Candidate) :
    ((∀ c ∈ corpus, c.eligible = false) →
      (retrieve corpus).ref = none ∧ (retrieve corpus).alternates = []
      ∧ (retrieve corpus).total_candidates = 0
      ∧ (retrieve corpus).reason = some "no eligible references"
      ∧ "no eligible references" ≠ "")
  ∧ ((retrieve corpus).reason.isSome = true ↔ (retrieve corpus).ref = none) := by
  constructor
  · intro h
    have hf : corpus.filter (fun c => c.eligible) = [] := by
      rw [List.filter_eq_nil_iff]
      intro c hc
      simp [h c hc]
    rw [retrieve, hf, List.mergeSort_nil]
    exact ⟨rfl, rfl, rfl, rfl, by decide⟩
  · rw [retrieve]
    rcases hms : (corpus.filter (fun c => c.eligible)).mergeSort rankLE with _ | ⟨r, rest⟩ <;>
      simp [hms]

/-- Concrete corpus holding a single ineligible candidate. -/
def corpusIneligible : List Candidate := [⟨"vid001", false, 1/2, 1/2⟩]

/-- Witness for C3 at the fully ineligible corpus. -/
theorem retrieve_no_match_witness :
    (∀ c ∈ corpusIneligible, c.eligible = false)
  ∧ (retrieve corpusIneligible).ref = none
  ∧ (retrieve corpusIneligible).alternates = []
  ∧ (retrieve corpusIneligible).total_candidates = 0
  ∧ (retrieve corpusIneligible).reason = some "no eligible references" :=
  ⟨by decide, ((retrieve_no_match corpusIneligible).1 (by decide)).1,
   ((retrieve_no_match corpusIneligible).1 (by decide)).2.1,
   ((retrieve_no_match corpusIneligible).1 (by decide)).2.2.1,
   ((retrieve_no_match corpusIneligible).1 (by decide)).2.2.2.1⟩

/-- The Done phase of the orchestrator machine is terminal. -/
lemma improveStep_done (env : ImproveEnv) (r : ImproveResponse) :
    improveStep env (ImprovePhase.done r) = ImprovePhase.done r := rfl

/-- After three transitions the orchestrator machine has finalized with the
closed-form response. -/
lemma improvePhase_three (env : ImproveEnv) :
    improvePhase env 3 = ImprovePhase.done (improveResponse env) := by
  show improveStep env (improveStep env (improveStep env ImprovePhase.initial)) =
    ImprovePhase.done (improveResponse env)
  by_cases h : (firstScore env).passed = true
  · simp [improveStep, improveResponse, h]
  · rcases ht : env.tuneOut with _ | t
    · simp [improveStep, improveResponse, h, ht]
    · simp only [improveStep, improveResponse, h, ht, if_false, Bool.not_eq_true] at *
      simp [h]
      split <;> rfl

/-- From the third transition on the orchestrator machine stays in the same
Done phase. -/
lemma improvePhase_ge_three (env : ImproveEnv) (n : Nat) (h : 3 ≤ n) :
    improvePhase env n = ImprovePhase.done (improveResponse env) := by
  obtain ⟨k, rfl⟩ := Nat.exists_eq_add_of_le h
  clear h
  induction k with
  | zero => exact improvePhase_three env
  | succ k ih =>
    show improveStep env (improvePhase env (3 + k)) = _
    rw [ih, improveStep_done]

/-- C2: an improve request finalizes after the bounded machine run with
tuner passes equal to one exactly when the first coherence check failed and
zero otherwise, the tuner pass count never exceeds one, and the tuning
phase can only ever be visited at the single step after the first failed
check, so the tuning loop never runs a second time. -/
theorem improve_gate_invariant (env : ImproveEnv) :
    respAt env 3 = some (improveResponse env)
  ∧ (improveResponse env).tuner_passes = (if (firstScore env).passed then 0 else 1)
  ∧ (improveResponse env).tuner_passes ≤ 1
  ∧ (∀ n, 3 ≤ n → respAt env n = some (improveResponse env))
  ∧ (∀ n, phaseIsTuning (improvePhase env n) = true →
      n = 2 ∧ (firstScore env).passed = false) := by
  have hpasses : (improveResponse env).tuner_passes =
      (if (firstScore env).passed then 0 else 1) := by
    by_cases h : (firstScore env).passed = true
    · simp [improveResponse, h]
    · simp only [Bool.not_eq_true] at h
      rcases ht : env.tuneOut with _ | t
      · simp [improveResponse, h, ht]
      · simp only [improveResponse, h, ht, Bool.false_eq_true, if_false]
        split <;> rfl
  refine ⟨?_, hpasses, ?_, ?_, ?_⟩
  · rw [respAt, improvePhase_three]
  · rw [hpasses]
    split <;> omega
  · intro n hn
    rw [respAt, improvePhase_ge_three env n hn]
  · intro n hn
    match n with
    | 0 => simp [improvePhase, phaseIsTuning] at hn
    | 1 => simp [improvePhase, improveStep, phaseIsTuning] at hn
    | 2 =>
      refine ⟨rfl, ?_⟩
      by_cases h : (firstScore env).passed = true
      · exfalso
        have h2 : improvePhase env 2 =
            ImprovePhase.done ⟨mkImproved env.rewriteOut (firstScore env), [], 0⟩ := by
          show improveStep env (improveStep env ImprovePhase.initial) = _
          simp [improveStep, h]
        rw [h2] at hn
        simp [phaseIsTuning] at hn
      · simpa using h
    | m + 3 =>
      rw [improvePhase_ge_three env (m + 3) (by omega)] at hn
      simp [phaseIsTuning] at hn

/-- A split is never the empty token list. -/
lemma splitOnP_ne_nil (p : Char → Bool) (cs : List Char) : splitOnP p cs ≠ [] := by
  cases cs with
  | nil => simp [splitOnP]
  | cons c cs =>
    simp only [splitOnP]
    split
    · simp
    · cases hsp : splitOnP p cs <;> simp [consHead]

/-- Tokens of a split contain no separator character. -/
lemma splitOnP_sep_free (p : Char → Bool) :
    ∀ cs, ∀ t ∈ splitOnP p cs, ∀ c ∈ t, p c = false := by
  intro cs
  induction cs with
  | nil =>
    intro t ht c hc
    simp only [splitOnP, List.mem_singleton] at ht
    subst ht
    simp at hc
  | cons a as ih =>
    intro t ht c hc
    simp only [splitOnP] at ht
    split at ht
    · rcases List.mem_cons.mp ht with h | h
      · subst h
        simp at hc
      · exact ih t h c hc
    · rename_i hpa
      simp only [Bool.not_eq_true] at hpa
      cases hsp : splitOnP p as with
      | nil => exact absurd hsp (splitOnP_ne_nil p as)
      | cons t0 ts =>
        rw [hsp] at ht
        simp only [consHead] at ht
        rcases List.mem_cons.mp ht with h | h
        · subst h
          rcases List.mem_cons.mp hc with h2 | h2
          · subst h2
            exact hpa
          · exact ih t0 (by rw [hsp]; exact List.mem_cons_self t0 ts) c h2
        · exact ih t (by rw [hsp]; exact List.mem_cons_of_mem t0 h) c hc

/-- Characters of split tokens come from the input. -/
lemma splitOnP_chars (p : Char → Bool) :
    ∀ cs, ∀ t ∈ splitOnP p cs, ∀ c ∈ t, c ∈ cs := by
  intro cs
  induction cs with
  | nil =>
    intro t ht c hc
    simp only [splitOnP, List.mem_singleton] at ht
    subst ht
    simp at hc
  | cons a as ih =>
    intro t ht c hc
    simp only [splitOnP] at ht
    split at ht
    · rcases List.mem_cons.mp ht with h | h
      · subst h
        simp at hc
      · exact List.mem_cons_of_mem a (ih t h c hc)
    · cases hsp : splitOnP p as with
      | nil => exact absurd hsp (splitOnP_ne_nil p as)
      | cons t0 ts =>
        rw [hsp] at ht
        simp only [consHead] at ht
        rcases List.mem_cons.mp ht with h | h
        · subst h
          rcases List.mem_cons.mp hc with h2 | h2
          · subst h2
            exact List.mem_cons_self c as
          · refine List.mem_cons_of_mem a (ih t0 ?_ c h2)
            rw [hsp]
            exact List.mem_cons_self t0 ts
        · refine List.mem_cons_of_mem a (ih t ?_ c hc)
          rw [hsp]
          exact List.mem_cons_of_mem t0 h

/-- Splitting a separator-free list yields that list as the only token. -/
lemma splitOnP_no_sep (p : Char → Bool) :
    ∀ t, (∀ c ∈ t, p c = false) → splitOnP p t = [t] := by
  intro t
  induction t with
  | nil => intro _; rfl
  | cons a as ih =>
    intro h
    have hpa : p a = false := h a (List.mem_cons_self a as)
    simp only [splitOnP]
    rw [if_neg (by simp [hpa]), ih (fun c hc => h c (List.mem_cons_of_mem a hc))]
    rfl

/-- Splitting distributes over an appended separator. -/
lemma splitOnP_append_sep (p : Char → Bool) (sepc : Char) (hsep : p sepc = true) :
    ∀ t, (∀ c ∈ t, p c = false) → ∀ cs, splitOnP p (t ++ sepc :: cs) = t :: splitOnP p cs := by
  intro t
  induction t with
  | nil =>
    intro _ cs
    simp only [List.nil_append, splitOnP]
    rw [if_pos hsep]
  | cons a as ih =>
    intro h cs
    have hpa : p a = false := h a (List.mem_cons_self a as)
    show splitOnP p (a :: (as ++ sepc :: cs)) = (a :: as) :: splitOnP p cs
    simp only [splitOnP]
    rw [if_neg (by simp [hpa]), ih (fun c hc => h c (List.mem_cons_of_mem a hc)) cs]
    rfl

/-- Joining then splitting recovers a nonempty separator-free token list. -/
lemma splitOnChar_joinWith (sep : Char) :
    ∀ ts : List (List Char), ts ≠ [] → (∀ t ∈ ts, ∀ c ∈ t, (c == sep) = false) →
      splitOnChar sep (joinWith sep ts) = ts := by
  intro ts
  induction ts with
  | nil => intro h _; exact absurd rfl h
  | cons t ts ih =>
    intro _ hfree
    cases ts with
    | nil =>
      show splitOnP (fun c => c == sep) (joinWith sep [t]) = [t]
      simp only [joinWith]
      exact splitOnP_no_sep _ t (fun c hc => hfree t (List.mem_cons_self t []) c hc)
    | cons t2 ts2 =>
      show splitOnP (fun c => c == sep) (t ++ sep :: joinWith sep (t2 :: ts2)) = t :: t2 :: ts2
      rw [splitOnP_append_sep _ sep (by simp) t
        (fun c hc => hfree t (List.mem_cons_self t (t2 :: ts2)) c hc)]
      rw [show splitOnP (fun c => c == sep) (joinWith sep (t2 :: ts2)) =
        splitOnChar sep (joinWith sep (t2 :: ts2)) from rfl]
      rw [ih (by simp) (fun u hu c hc => hfree u (List.mem_cons_of_mem t hu) c hc)]

/-- Characters of a join are separators or token characters. -/
lemma mem_joinWith (sep : Char) :
    ∀ ts : List (List Char), ∀ c ∈ joinWith sep ts, c = sep ∨ ∃ t ∈ ts, c ∈ t := by
  intro ts
  induction ts with
  | nil =>
    intro c hc
    simp [joinWith] at hc
  | cons t ts ih =>
    intro c hc
    cases ts with
    | nil =>
      right
      exact ⟨t, List.mem_cons_self t [], by simpa [joinWith] using hc⟩
    | cons t2 ts2 =>
      simp only [joinWith] at hc
      rcases List.mem_append.mp hc with h | h
      · right
        exact ⟨t, List.mem_cons_self t (t2 :: ts2), h⟩
      · rcases List.mem_cons.mp h with h2 | h2
        · left
          exact h2
        · rcases ih c h2 with h3 | ⟨u, hu, hcu⟩
          · left
            exact h3
          · right
            exact ⟨u, List.mem_cons_of_mem t hu, hcu⟩

/-- Dropping a prefix by a predicate twice is the same as dropping once. -/
lemma dropWhile_idem_tokens (p : List Char → Bool) :
    ∀ l : List (List Char), (l.dropWhile p).dropWhile p = l.dropWhile p := by
  intro l
  induction l with
  | nil => rfl
  | cons a as ih =>
    by_cases h : p a = true
    · simp [List.dropWhile_cons, h, ih]
    · simp [List.dropWhile_cons, h]

/-- Tokens of the cleaned token list come from the input token list. -/
lemma cleanTokens_subset (ts : List (List Char)) :
    ∀ t ∈ cleanTokens ts, t ∈ ts := by
  intro t ht
  have h1 : t ∈ ts.filter keepToken :=
    (List.dropWhile_sublist isBracketTs).mem ht
  exact (List.mem_filter.mp h1).1

/-- Token-level cleaning is idempotent. -/
lemma cleanTokens_idem (ts : List (List Char)) :
    cleanTokens (cleanTokens ts) = cleanTokens ts := by
  unfold cleanTokens
  have hfilt : ((ts.filter keepToken).dropWhile isBracketTs).filter keepToken =
      (ts.filter keepToken).dropWhile isBracketTs := by
    rw [List.filter_eq_self]
    intro t ht
    have h1 : t ∈ ts.filter keepToken :=
      (List.dropWhile_sublist isBracketTs).mem ht
    exact (List.mem_filter.mp h1).2
  rw [hfilt, dropWhile_idem_tokens]

/-- Line cleaning is idempotent. -/
lemma cleanLine_idem (cs : List Char) : cleanLine (cleanLine cs) = cleanLine cs := by
  unfold cleanLine
  cases hct : cleanTokens (splitOnChar ' ' cs) with
  | nil => decide
  | cons t ts =>
    have hfree : ∀ u ∈ t :: ts, ∀ c ∈ u, (c == ' ') = false := by
      intro u hu c hc
      have hu2 : u ∈ splitOnChar ' ' cs := by
        refine cleanTokens_subset _ u ?_
        rw [hct]
        exact hu
      exact splitOnP_sep_free (fun c => c == ' ') cs u hu2 c hc
    have hsplit : splitOnChar ' ' (joinWith ' ' (t :: ts)) = t :: ts :=
      splitOnChar_joinWith ' ' (t :: ts) (by simp) hfree
    have hidem : cleanTokens (t :: ts) = t :: ts := by
      rw [← hct, cleanTokens_idem]
    rw [hsplit, hidem]

/-- Characters of a cleaned line are spaces or input characters. -/
lemma cleanLine_chars (cs : List Char) : ∀ c ∈ cleanLine cs, c = ' ' ∨ c ∈ cs := by
  intro c hc
  rcases mem_joinWith ' ' _ c hc with h | ⟨t, ht, hct⟩
  · left
    exact h
  · right
    exact splitOnP_chars _ cs t (cleanTokens_subset _ t ht) c hct

/-- Mapping an idempotent line cleaner twice is mapping it once. -/
lemma map_cleanLine_idem :
    ∀ ls : List (List Char), ls.map (fun l => cleanLine (cleanLine l)) = ls.map cleanLine := by
  intro ls
  induction ls with
  | nil => rfl
  | cons a as ih => simp [cleanLine_idem, ih]

/-- Character-level cleaning is idempotent. -/
lemma cleanChars_idem (cs : List Char) : cleanChars (cleanChars cs) = cleanChars cs := by
  unfold cleanChars
  have hne : (splitOnChar '\n' cs).map cleanLine ≠ [] := by
    intro h
    exact splitOnP_ne_nil _ cs (List.map_eq_nil_iff.mp h)
  have hfree : ∀ t ∈ (splitOnChar '\n' cs).map cleanLine, ∀ c ∈ t, (c == '\n') = false := by
    intro t ht c hc
    rcases List.mem_map.mp ht with ⟨line, hline, rfl⟩
    rcases cleanLine_chars line c hc with h | h
    · rw [h]
      decide
    · exact splitOnP_sep_free _ cs line hline c h
  rw [splitOnChar_joinWith '\n' _ hne hfree, List.map_map]
  show joinWith '\n' ((splitOnChar '\n' cs).map (fun l => cleanLine (cleanLine l))) = _
  rw [map_cleanLine_idem]

/-- C6: the timestamp-noise cleaner is idempotent: re-cleaning
already-cleaned text is a no-op for every string. -/
theorem clean_idempotent (s : String) : clean (clean s) = clean s := by
  show (⟨cleanChars (cleanChars s.data)⟩ : String) = ⟨cleanChars s.data⟩
  rw [cleanChars_idem]

/-- Concrete improve environment whose first coherence check fails and
whose tuning call fails. -/
def envGateFail : ImproveEnv :=
  ⟨⟨"Title", "Hook", "Body", 3⟩, fun _ _ => ⟨7/10, none, false⟩, none⟩

/-- Witness for C2 at the failing-gate environment. -/
theorem improve_gate_invariant_witness :
    phaseIsTuning (improvePhase envGateFail 2) = true
  ∧ respAt envGateFail 3 = some (improveResponse envGateFail)
  ∧ (improveResponse envGateFail).tuner_passes = 1
  ∧ (improveResponse envGateFail).tuner_passes ≤ 1
  ∧ respAt envGateFail 5 = some (improveResponse envGateFail)
  ∧ CoherenceScore.passed (firstScore envGateFail) = false := by
  have h := improve_gate_invariant envGateFail
  have htun : phaseIsTuning (improvePhase envGateFail 2) = true := by decide
  refine ⟨htun, h.1, ?_, h.2.2.1, h.2.2.2.1 5 (by omega), (h.2.2.2.2 2 htun).2⟩
  rw [h.2.1]
  decide
